import Mathlib

/-!
Verification of the color/composition analysis core of the Uploader repository.

Shallow embedding of:
* the color utility module (`rgbToHex`, `hexToRgb`, `rgbToHsl`, `hslToRgb`,
  `ciede2000`, `extractPalette`),
* `src/lib/image/palette.ts` (`findDominantColor`, `colorDistance`, lenient `hexToRgb`),
* `src/lib/image/crop.ts` (`autoCrop` bounding-box computation, `isColorSimilar`,
  `getMostCommonColor`),
* `src/lib/image/bgRemove.ts` (`removeBackgroundSimple`, `isColorSimilar`,
  `getMostFrequentColor`).

JavaScript `number` arithmetic is modelled with exact rationals (ℚ); pixel
channels, which are 8-bit integers in every buffer the code reads, are
modelled with ℕ (image pixels in the crop/background modules use ℤ channels
to keep absolute differences convenient).  `Math.round` is `fun q => ⌊q + 1/2⌋`
(JS rounds halves toward +∞).  Square roots appear in the source only as
arguments of strict comparisons; since `Real.sqrt` is strictly monotone on
nonnegative reals (and IEEE-754 `sqrt` of the integer operands in range never
collapses two distinct values), all comparisons are modelled on the squared
distances, which preserves every comparison outcome.
-/

/-- JavaScript `Math.round`: round half toward positive infinity. -/
def jsRound (q : ℚ) : ℤ := ⌊q + 1/2⌋

/-- The `RGB` record of the color utility module: three integer channels. -/
structure RGB where
  r : ℕ
  g : ℕ
  b : ℕ
  deriving DecidableEq, Repr

/-- The `HSL` record of the color utility module (integer-rounded outputs). -/
structure HSL where
  h : ℤ
  s : ℤ
  l : ℤ
  deriving DecidableEq, Repr

/-- Two-hex-digit encoding of one channel:
`Math.round(n).toString(16).padStart(2, '0')` (on natural-number input
`Math.round` is the identity; `Nat.toDigits 16` is the lowercase base-16
digit string exactly as `toString(16)` produces for integers). -/
def hexByte (n : ℕ) : List Char :=
  let ds := Nat.toDigits 16 n
  List.replicate (2 - ds.length) '0' ++ ds

/-- `rgbToHex` of the color utility module: `#` followed by the three
channel encodings. -/
def rgbToHex (c : RGB) : String :=
  ⟨'#' :: (hexByte c.r ++ hexByte c.g ++ hexByte c.b)⟩

/-- One character of the class `[a-f\d]` with the `i` flag:
a decimal digit or a hex letter of either case. -/
def isHexDigitCI (c : Char) : Bool :=
  (('0' ≤ c && c ≤ '9') || ('a' ≤ c && c ≤ 'f') || ('A' ≤ c && c ≤ 'F'))

/-- `parseInt(·, 16)` value of one matched hex character. -/
def hexVal (c : Char) : ℕ :=
  if '0' ≤ c ∧ c ≤ '9' then c.toNat - 48
  else if 'a' ≤ c ∧ c ≤ 'f' then c.toNat - 87
  else if 'A' ≤ c ∧ c ≤ 'F' then c.toNat - 55
  else 0

/-- The optional leading `#?` of the regex `^#?(..)(..)(..)$`. -/
def hexBody : List Char → List Char
  | '#' :: rest => rest
  | cs => cs

/-- Core of the regex match `^#?([a-f\d]{2})([a-f\d]{2})([a-f\d]{2})$/i`
plus `parseInt(group, 16)`: `none` exactly when the regex fails. -/
def hexCore (cs : List Char) : Option RGB :=
  match hexBody cs with
  | [c1, c2, c3, c4, c5, c6] =>
    if isHexDigitCI c1 && isHexDigitCI c2 && isHexDigitCI c3 &&
       isHexDigitCI c4 && isHexDigitCI c5 && isHexDigitCI c6 then
      some ⟨hexVal c1 * 16 + hexVal c2, hexVal c3 * 16 + hexVal c4,
            hexVal c5 * 16 + hexVal c6⟩
    else none
  | _ => none

/-- `hexToRgb` of the color utility module: throws (`none`) when the regex
does not match. -/
def hexToRgb (s : String) : Option RGB := hexCore s.data

/-- The private `hexToRgb` of `src/lib/image/palette.ts`: same regex, but on
failure it returns the zero pixel instead of throwing. -/
def paletteHexToRgb (s : String) : RGB := (hexCore s.data).getD ⟨0, 0, 0⟩

/-- Whether the shared hex regex matches a string. -/
def hexMatches (s : String) : Bool := (hexCore s.data).isSome

/-- `rgbToHsl` of the color utility module.  Channels are normalised to
[0,1]; the `switch (max)` statement tests `case r` first, then `case g`,
then `case b`, which the nested `if` mirrors; `h = 0`, `s = 0` when
`max === min`. -/
def rgbToHsl (c : RGB) : HSL :=
  let r : ℚ := c.r / 255
  let g : ℚ := c.g / 255
  let b : ℚ := c.b / 255
  let mx := max r (max g b)
  let mn := min r (min g b)
  let l := (mx + mn) / 2
  if mx = mn then
    ⟨jsRound (0 * 360), jsRound (0 * 100), jsRound (l * 100)⟩
  else
    let d := mx - mn
    let s := if l > 1/2 then d / (2 - mx - mn) else d / (mx + mn)
    let h :=
      if mx = r then ((g - b) / d + (if g < b then (6 : ℚ) else 0)) / 6
      else if mx = g then ((b - r) / d + 2) / 6
      else ((r - g) / d + 4) / 6
    ⟨jsRound (h * 360), jsRound (s * 100), jsRound (l * 100)⟩

/-- The inner `hue2rgb` helper of `hslToRgb`: two sequential wraparound
adjustments of `t`, then the four-branch piecewise-linear segment. -/
def hue2rgb (p q t : ℚ) : ℚ :=
  let t1 := if t < 0 then t + 1 else t
  let t2 := if t1 > 1 then t1 - 1 else t1
  if t2 < 1/6 then p + (q - p) * 6 * t2
  else if t2 < 1/2 then q
  else if t2 < 2/3 then p + (q - p) * (2/3 - t2) * 6
  else p

/-- `hslToRgb` of the color utility module.  The three rounded channel
values are nonnegative on every output of `rgbToHsl`, so `Int.toNat`
is exact there. -/
def hslToRgb (c : HSL) : RGB :=
  let h : ℚ := c.h / 360
  let s : ℚ := c.s / 100
  let l : ℚ := c.l / 100
  if s = 0 then
    ⟨(jsRound (l * 255)).toNat, (jsRound (l * 255)).toNat, (jsRound (l * 255)).toNat⟩
  else
    let q := if l < 1/2 then l * (1 + s) else l + s - l * s
    let p := 2 * l - q
    ⟨(jsRound (hue2rgb p q (h + 1/3) * 255)).toNat,
     (jsRound (hue2rgb p q h * 255)).toNat,
     (jsRound (hue2rgb p q (h - 1/3) * 255)).toNat⟩

/-- The `ciede2000` function of the color utility module computes
`Math.sqrt(dr*dr + dg*dg + db*db)`; the source only ever compares its
results with `<`, and square root is strictly monotone (and exact on the
integer squared distances in range), so the embedding keeps the squared
distance. -/
def ciede2000Sq (c1 c2 : RGB) : ℤ :=
  ((c1.r : ℤ) - c2.r) ^ 2 + ((c1.g : ℤ) - c2.g) ^ 2 + ((c1.b : ℤ) - c2.b) ^ 2

/-- The luminance key `0.299*r + 0.587*g + 0.114*b` used to order the
final centroids. -/
def lumQ (c : RGB) : ℚ := 299/1000 * c.r + 587/1000 * c.g + 114/1000 * c.b

/-- Stable insertion of `x` before the first element of strictly smaller
luminance. -/
def insertDesc (x : RGB) : List RGB → List RGB
  | [] => [x]
  | y :: ys => if lumQ y < lumQ x then x :: y :: ys else y :: insertDesc x ys

/-- `centroids.sort((a, b) => lumB - lumA)`: a stable sort placing higher
luminance first (ECMAScript guarantees a stable sort that is ordered by the
consistent comparator; stable insertion sort on the same key is such a
sort). -/
def sortDesc (l : List RGB) : List RGB := l.foldr insertDesc []

/-- Insertion-ordered set of first occurrences: the key order of a JS `Map`
populated by successive `set` calls. -/
def firstSeen {α : Type} [DecidableEq α] (l : List α) : List α :=
  l.foldl (fun acc c => if c ∈ acc then acc else acc ++ [c]) []

/-- Number of distinct pixel colors (`count_distinct` of the claim). -/
def countDistinct (pixels : List RGB) : ℕ := (firstSeen pixels).length

/-- The assignment loop of `extractPalette`: running `minDist`
(`Infinity` as `none`) and `nearestIdx` (initially 0), updated on strict
improvement, so the first centroid attaining the minimum wins. -/
def nearestCentroidIdx (cents : List RGB) (p : RGB) : ℕ :=
  (cents.foldl
    (fun (st : ℕ × ℕ × Option ℤ) c =>
      match st.2.2 with
      | none => (st.1 + 1, st.1, some (ciede2000Sq p c))
      | some m =>
        if ciede2000Sq p c < m then (st.1 + 1, st.1, some (ciede2000Sq p c))
        else (st.1 + 1, st.2.1, some m))
    (0, 0, none)).2.1

/-- `clusters[nearestIdx].push(pixel)` over all pixels, starting from one
empty cluster per centroid. -/
def assignClusters (cents : List RGB) (pixels : List RGB) : List (List RGB) :=
  pixels.foldl
    (fun cls px =>
      let i := nearestCentroidIdx cents px
      cls.set i (cls.getD i [] ++ [px]))
    (cents.map fun _ => [])

/-- The centroid update: per-channel mean accumulated as
`acc + channel / cluster.length` exactly as in the source `reduce`, then
`Math.round` per channel. -/
def meanCentroid (cluster : List RGB) : RGB :=
  let n : ℚ := cluster.length
  let avg := cluster.foldl
    (fun (a : ℚ × ℚ × ℚ) px => (a.1 + px.r / n, a.2.1 + px.g / n, a.2.2 + px.b / n))
    (0, 0, 0)
  ⟨(jsRound avg.1).toNat, (jsRound avg.2.1).toNat, (jsRound avg.2.2).toNat⟩

/-- One k-means iteration: assign every pixel to the nearest centroid,
then replace every centroid whose cluster is non-empty with the rounded
cluster mean (empty clusters keep their previous centroid). -/
def kmeansStep (pixels : List RGB) (cents : List RGB) : List RGB :=
  let cls := assignClusters cents pixels
  List.zipWith (fun c cluster => if cluster = [] then c else meanCentroid cluster) cents cls

/-- The random initialisation loop of `extractPalette`.  `draws` is the
stream of successive `Math.floor(Math.random() * pixels.length)` values;
each loop iteration first re-checks `centroids.length < bound`
(`bound = Math.min(numColors, pixels.length)`), then skips indices already
in `usedIndices`.  The source loops until the bound is reached; a finite
draw stream reproduces every prefix of such an execution. -/
def initCentroids (pixels : List RGB) (bound : ℕ) (draws : List ℕ) : List RGB :=
  (draws.foldl
    (fun (st : List RGB × List ℕ) idx =>
      if st.1.length < bound then
        if idx ∈ st.2 then st
        else (st.1 ++ [pixels.getD idx ⟨0, 0, 0⟩], idx :: st.2)
      else st)
    ([], [])).1

/-- `extractPalette` of the color utility module, with the random index
stream made explicit: empty input short-circuits to `[]`; otherwise random
initialisation, exactly 10 k-means iterations, sort by descending
luminance, hex encoding. -/
def extractPalette (draws : List ℕ) (pixels : List RGB) (numColors : ℕ) : List String :=
  if pixels = [] then []
  else
    let cents0 := initCentroids pixels (min numColors pixels.length) draws
    let cents := (kmeansStep pixels)^[10] cents0
    (sortDesc cents).map rgbToHex

/-- Jimp RGBA pixel record used by `src/lib/image/crop.ts` and
`src/lib/image/bgRemove.ts` (`Jimp.intToRGBA` output): four 8-bit
channels, carried as integers. -/
structure RGBA where
  r : ℤ
  g : ℤ
  b : ℤ
  a : ℤ
  deriving DecidableEq, Repr

/-- `isColorSimilar` of `src/lib/image/crop.ts`: the alpha channel is
checked first; any channel (alpha included) beyond tolerance makes the
colors dissimilar. -/
def cropColorSimilar (c1 c2 : RGBA) (tolerance : ℤ) : Bool :=
  if |c1.a - c2.a| > tolerance then false
  else decide (|c1.r - c2.r| ≤ tolerance ∧ |c1.g - c2.g| ≤ tolerance ∧
    |c1.b - c2.b| ≤ tolerance)

/-- `isColorSimilar` of `src/lib/image/bgRemove.ts`: only R, G, B are
compared; alpha is ignored. -/
def bgColorSimilar (c1 c2 : RGBA) (tolerance : ℤ) : Bool :=
  decide (|c1.r - c2.r| ≤ tolerance ∧ |c1.g - c2.g| ≤ tolerance ∧
    |c1.b - c2.b| ≤ tolerance)

/-- A decoded Jimp bitmap: dimensions plus a pixel lookup
(`image.getPixelColor(x, y)` decoded through `Jimp.intToRGBA`; the
int-to-RGBA packing is bijective, so colors are compared directly). -/
structure JImage where
  width : ℕ
  height : ℕ
  pix : ℕ → ℕ → RGBA

/-- The four corner samples `(0,0), (w-1,0), (0,h-1), (w-1,h-1)` shared by
`autoCrop` and `removeBackgroundSimple`. -/
def cornerColors (img : JImage) : List RGBA :=
  [img.pix 0 0, img.pix (img.width - 1) 0, img.pix 0 (img.height - 1),
   img.pix (img.width - 1) (img.height - 1)]

/-- `getMostCommonColor` of `src/lib/image/crop.ts`: tally in a `Map`
(insertion order = first-seen order), then keep the first color whose
count strictly exceeds the running maximum (initially 0, `colors[0]`). -/
def getMostCommonColor (colors : List RGBA) : RGBA :=
  ((firstSeen colors).foldl
    (fun (st : RGBA × ℕ) c =>
      let n := colors.count c
      if st.2 < n then (c, n) else st)
    (colors.headD ⟨0, 0, 0, 0⟩, 0)).1

/-- `getMostFrequentColor` of `src/lib/image/bgRemove.ts`: textually the
same algorithm as `getMostCommonColor`. -/
def getMostFrequentColor (colors : List RGBA) : RGBA :=
  ((firstSeen colors).foldl
    (fun (st : RGBA × ℕ) c =>
      let n := colors.count c
      if st.2 < n then (c, n) else st)
    (colors.headD ⟨0, 0, 0, 0⟩, 0)).1

/-- Row-major pixel coordinates of `image.scan(0, 0, width, height, ...)`. -/
def scanCoords (w h : ℕ) : List (ℕ × ℕ) :=
  (List.range h).bind (fun y => (List.range w).map (fun x => (x, y)))

/-- The content-bounds scan of `autoCrop`: starting from
`minX = width, minY = height, maxX = 0, maxY = 0`, every pixel NOT similar
to the background estimate updates the running min/max. -/
def contentBounds (img : JImage) (bg : RGBA) (tolerance : ℤ) : ℕ × ℕ × ℕ × ℕ :=
  (scanCoords img.width img.height).foldl
    (fun (st : ℕ × ℕ × ℕ × ℕ) xy =>
      if cropColorSimilar (img.pix xy.1 xy.2) bg tolerance then st
      else (min st.1 xy.1, min st.2.1 xy.2, max st.2.2.1 xy.1, max st.2.2.2 xy.2))
    (img.width, img.height, 0, 0)

/-- The pure box computation of `autoCrop` (`src/lib/image/crop.ts`):
corner-sampled background, content bounds, percentage padding, clamping.
Returns the `(x, y, width, height)` handed to the extract call. -/
def autoCropBox (img : JImage) (tolerance : ℤ) (padding : ℚ) : ℤ × ℤ × ℤ × ℤ :=
  let bg := getMostCommonColor (cornerColors img)
  let bounds := contentBounds img bg tolerance
  let cropW : ℤ := (bounds.2.2.1 : ℤ) - bounds.1 + 1
  let cropH : ℤ := (bounds.2.2.2 : ℤ) - bounds.2.1 + 1
  let padX := jsRound ((cropW : ℚ) * padding / 100)
  let padY := jsRound ((cropH : ℚ) * padding / 100)
  let fx := max 0 ((bounds.1 : ℤ) - padX)
  let fy := max 0 ((bounds.2.1 : ℤ) - padY)
  let fw := min ((img.width : ℤ) - fx) (cropW + 2 * padX)
  let fh := min ((img.height : ℤ) - fy) (cropH + 2 * padY)
  (fx, fy, fw, fh)

/-- Result record of the background-removal providers
(`{ success, provider, maskPath }` plus the produced images). -/
structure BgRemovalResult where
  success : Bool
  provider : String
  matted : JImage
  mask : JImage

/-- The matting scan of `removeBackgroundSimple`: pixels similar to the
background estimate become fully transparent. -/
def matteImage (img : JImage) (bg : RGBA) (tolerance : ℤ) : JImage :=
  { img with pix := fun x y =>
      if bgColorSimilar (img.pix x y) bg tolerance then ⟨0, 0, 0, 0⟩
      else img.pix x y }

/-- `createMask` of `src/lib/image/bgRemove.ts`: black where similar to the
background, white elsewhere. -/
def createMask (img : JImage) (bg : RGBA) (tolerance : ℤ) : JImage :=
  { img with pix := fun x y =>
      if bgColorSimilar (img.pix x y) bg tolerance then ⟨0, 0, 0, 255⟩
      else ⟨255, 255, 255, 255⟩ }

/-- `removeBackgroundSimple` of `src/lib/image/bgRemove.ts` (pure part):
corner-sampled background, fixed tolerance 30, matting, external Jimp
`blur(1)` (passed in as `blur`, an external library call), mask creation;
on success the result is tagged `provider: "simple"`. -/
def removeBackgroundSimple (blur : JImage → JImage) (img : JImage) : BgRemovalResult :=
  let bg := getMostFrequentColor (cornerColors img)
  let tolerance : ℤ := 30
  { success := true
    provider := "simple"
    matted := blur (matteImage img bg tolerance)
    mask := createMask img bg tolerance }

/-- `colorDistance` of `src/lib/image/palette.ts` computes
`Math.sqrt(dr*dr + dg*dg + db*db)` on the two hex-decoded colors; as it is
only compared with `<`, the squared distance is kept (square root is
strictly monotone). -/
def colorDistanceSq (hex1 hex2 : String) : ℤ :=
  let rgb1 := paletteHexToRgb hex1
  let rgb2 := paletteHexToRgb hex2
  ((rgb1.r : ℤ) - rgb2.r) ^ 2 + ((rgb1.g : ℤ) - rgb2.g) ^ 2 +
    ((rgb1.b : ℤ) - rgb2.b) ^ 2

/-- Loop body of the nearest-palette-entry scan of `findDominantColor`:
state is `(closestColor, minDist)` with JS `Infinity` as `none`; the entry
replaces the running best only on strict improvement (`dist < minDist`). -/
def closestStep (px : RGB) (st : String × Option ℤ) (c : String) :
    String × Option ℤ :=
  match st.2 with
  | none => (c, some (colorDistanceSq (rgbToHex px) c))
  | some m =>
    let d := colorDistanceSq (rgbToHex px) c
    if d < m then (c, some d) else st

/-- The nearest-palette-entry loop of `findDominantColor`: running
`minDist` (`Infinity` as `none`) and `closestColor` (initially
`palette[0]`), updated on strict improvement. -/
def closestPaletteColor (palette : List String) (px : RGB) : String :=
  (palette.foldl (closestStep px) (palette.headD "#000000", none)).1

/-- Final per-entry count of the `counts` map of `findDominantColor`:
the number of pixels whose nearest palette entry is `c`. -/
def dominantTally (pixels : List RGB) (palette : List String) (c : String) : ℕ :=
  (pixels.filter (fun px => decide (closestPaletteColor palette px = c))).length

/-- Loop body of the final `counts.forEach` of `findDominantColor`:
state is `(dominant, maxCount)`; an entry replaces the running best only
when its count strictly exceeds it. -/
def dominantStep (pixels : List RGB) (palette : List String)
    (st : String × ℕ) (c : String) : String × ℕ :=
  let n := dominantTally pixels palette c
  if st.2 < n then (c, n) else st

/-- `findDominantColor` of `src/lib/image/palette.ts`: `"#000000"` for an
empty palette, otherwise iterate the count map in key-insertion order
(first-seen order of the palette) keeping the first entry whose count
strictly exceeds the running maximum (initially 0, `palette[0]`). -/
def findDominantColor (pixels : List RGB) (palette : List String) : String :=
  if palette = [] then "#000000"
  else
    ((firstSeen palette).foldl (dominantStep pixels palette)
      (palette.headD "#000000", 0)).1

set_option maxRecDepth 4000 in
theorem hexByte_pair : ∀ n : Fin 256,
    hexByte n.val = [Nat.digitChar (n.val / 16), Nat.digitChar (n.val % 16)] := by
  decide

set_option maxRecDepth 4000 in
theorem hexDigit_val : ∀ n : Fin 256,
    (isHexDigitCI (Nat.digitChar (n.val / 16)) &&
     isHexDigitCI (Nat.digitChar (n.val % 16))) = true ∧
    hexVal (Nat.digitChar (n.val / 16)) * 16 +
      hexVal (Nat.digitChar (n.val % 16)) = n.val := by
  decide

theorem hexCore_rgbToHex (r g b : ℕ)
    (hr : r ≤ 255) (hg : g ≤ 255) (hb : b ≤ 255) :
    hexCore (rgbToHex ⟨r, g, b⟩).data = some ⟨r, g, b⟩ := by
  have h1 := hexByte_pair ⟨r, by omega⟩
  have h2 := hexByte_pair ⟨g, by omega⟩
  have h3 := hexByte_pair ⟨b, by omega⟩
  have d1 := hexDigit_val ⟨r, by omega⟩
  have d2 := hexDigit_val ⟨g, by omega⟩
  have d3 := hexDigit_val ⟨b, by omega⟩
  simp only [Bool.and_eq_true] at d1 d2 d3
  simp [rgbToHex, hexCore, hexBody, h1, h2, h3,
    d1.1.1, d1.1.2, d2.1.1, d2.1.2, d3.1.1, d3.1.2,
    d1.2, d2.2, d3.2]

/-- C1: for every pixel with integer channels in [0,255],
`hex_to_rgb(rgb_to_hex(p)) == p`: encoding to the canonical 6-hex-digit
`#`-prefixed string and decoding back returns exactly the original channels. -/
theorem hexToRgb_rgbToHex_roundtrip (r g b : ℕ)
    (hr : r ≤ 255) (hg : g ≤ 255) (hb : b ≤ 255) :
    hexToRgb (rgbToHex ⟨r, g, b⟩) = some ⟨r, g, b⟩ :=
  hexCore_rgbToHex r g b hr hg hb

/-- Witness for C1 at a concrete pixel. -/
theorem hexToRgb_rgbToHex_roundtrip_witness :
    hexToRgb (rgbToHex ⟨255, 0, 17⟩) = some ⟨255, 0, 17⟩ :=
  hexToRgb_rgbToHex_roundtrip 255 0 17 (by decide) (by decide) (by decide)

theorem jsRound_ub (q : ℚ) : (jsRound q : ℚ) ≤ q + 1/2 := Int.floor_le _

theorem jsRound_lb (q : ℚ) : q - 1/2 < (jsRound q : ℚ) := by
  unfold jsRound
  have h := Int.sub_one_lt_floor (q + 1/2)
  linarith

/-- Counterexample for C4: at p = (255,100,0) the HSL round trip returns
(255,102,0), whose green channel differs from the original by 2 > 1. -/
theorem hsl_roundtrip_counterexample :
    hslToRgb (rgbToHsl ⟨255, 100, 0⟩) = ⟨255, 102, 0⟩ ∧
    ¬ ((hslToRgb (rgbToHsl ⟨255, 100, 0⟩)).g ≤ 100 + 1) := by
  have h1 : rgbToHsl ⟨255, 100, 0⟩ = ⟨24, 100, 50⟩ := by
    simp only [rgbToHsl]
    norm_num [jsRound]
  have h2 : hslToRgb ⟨24, 100, 50⟩ = ⟨255, 102, 0⟩ := by
    simp only [hslToRgb, hue2rgb]
    norm_num [jsRound]
    decide
  rw [h1, h2]
  exact ⟨rfl, by decide⟩

theorem rgbToHsl_achromatic (v : ℕ) :
    rgbToHsl ⟨v, v, v⟩ = ⟨0, 0, jsRound ((v : ℚ) / 255 * 100)⟩ := by
  simp only [rgbToHsl, max_self, min_self, if_pos]
  norm_num [jsRound]

theorem hslToRgb_gray (L : ℤ) : hslToRgb ⟨0, 0, L⟩ =
    ⟨(jsRound ((L : ℚ) / 100 * 255)).toNat, (jsRound ((L : ℚ) / 100 * 255)).toNat,
     (jsRound ((L : ℚ) / 100 * 255)).toNat⟩ := by
  simp [hslToRgb]

/-- C4 (amended): the per-channel tolerance-1 HSL round trip fails in
general (the green channel comes back off by 2 at (255,100,0)); it does
hold for every achromatic pixel r = g = b. -/
theorem hsl_roundtrip_achromatic (v : ℕ) :
    (hslToRgb (rgbToHsl ⟨v, v, v⟩)).r ≤ v + 1 ∧
    v ≤ (hslToRgb (rgbToHsl ⟨v, v, v⟩)).r + 1 ∧
    (hslToRgb (rgbToHsl ⟨v, v, v⟩)).g ≤ v + 1 ∧
    v ≤ (hslToRgb (rgbToHsl ⟨v, v, v⟩)).g + 1 ∧
    (hslToRgb (rgbToHsl ⟨v, v, v⟩)).b ≤ v + 1 ∧
    v ≤ (hslToRgb (rgbToHsl ⟨v, v, v⟩)).b + 1 := by
  rw [rgbToHsl_achromatic, hslToRgb_gray]
  have hLu := jsRound_ub ((v : ℚ) / 255 * 100)
  have hLl := jsRound_lb ((v : ℚ) / 255 * 100)
  have hTu := jsRound_ub ((jsRound ((v : ℚ) / 255 * 100) : ℚ) / 100 * 255)
  have hTl := jsRound_lb ((jsRound ((v : ℚ) / 255 * 100) : ℚ) / 100 * 255)
  have hT1 : (jsRound ((jsRound ((v : ℚ) / 255 * 100) : ℚ) / 100 * 255) : ℚ) <
      (v : ℚ) + 2 := by linarith
  have hT2 : (v : ℚ) - 2 <
      (jsRound ((jsRound ((v : ℚ) / 255 * 100) : ℚ) / 100 * 255) : ℚ) := by linarith
  have hT1' : jsRound ((jsRound ((v : ℚ) / 255 * 100) : ℚ) / 100 * 255) < (v : ℤ) + 2 := by
    exact_mod_cast hT1
  have hT2' : (v : ℤ) - 2 < jsRound ((jsRound ((v : ℚ) / 255 * 100) : ℚ) / 100 * 255) := by
    exact_mod_cast hT2
  refine ⟨?_, ?_, ?_, ?_, ?_, ?_⟩ <;> dsimp only <;> omega

/-- Counterexample for C5: the pixel (255,0,1) yields hue 360, outside
the claimed half-open range [0,360). -/
theorem rgbToHsl_hue360_counterexample :
    rgbToHsl ⟨255, 0, 1⟩ = ⟨360, 100, 50⟩ ∧
    ¬ ((rgbToHsl ⟨255, 0, 1⟩).h < 360) := by
  have h1 : rgbToHsl ⟨255, 0, 1⟩ = ⟨360, 100, 50⟩ := by
    simp only [rgbToHsl]
    norm_num [jsRound]
  rw [h1]
  exact ⟨rfl, by decide⟩

theorem jsRound_bounds {q : ℚ} {B : ℤ} (h0 : 0 ≤ q) (hB : q ≤ B) :
    0 ≤ jsRound q ∧ jsRound q ≤ B := by
  unfold jsRound
  constructor
  · exact Int.le_floor.mpr (by push_cast; linarith)
  · have h1 : (⌊q + 1/2⌋ : ℤ) ≤ ⌊(1/2 : ℚ) + B⌋ :=
      Int.floor_le_floor (by linarith)
    rwa [Int.floor_add_int, show ⌊(1/2 : ℚ)⌋ = 0 by norm_num, zero_add] at h1

theorem length_assignClusters (cents pixels : List RGB) :
    (assignClusters cents pixels).length = cents.length := by
  unfold assignClusters
  have aux : ∀ (l : List RGB) (acc : List (List RGB)),
      (l.foldl (fun cls px =>
        let i := nearestCentroidIdx cents px
        cls.set i (cls.getD i [] ++ [px])) acc).length = acc.length := by
    intro l
    induction l with
    | nil => intro acc; rfl
    | cons p ps ih =>
      intro acc
      rw [List.foldl_cons, ih]
      simp [List.length_set]
  rw [aux]
  simp

theorem length_kmeansStep (pixels cents : List RGB) :
    (kmeansStep pixels cents).length = cents.length := by
  unfold kmeansStep
  simp [List.length_zipWith, length_assignClusters]

theorem length_iterate_kmeans (pixels : List RGB) (n : ℕ) (cents : List RGB) :
    ((kmeansStep pixels)^[n] cents).length = cents.length := by
  induction n generalizing cents with
  | zero => rfl
  | succ n ih =>
    rw [Function.iterate_succ_apply, ih (kmeansStep pixels cents), length_kmeansStep]

theorem length_insertDesc (x : RGB) (l : List RGB) :
    (insertDesc x l).length = l.length + 1 := by
  induction l with
  | nil => rfl
  | cons y ys ih =>
    simp only [insertDesc]
    split_ifs <;> simp [ih]

theorem length_sortDesc (l : List RGB) : (sortDesc l).length = l.length := by
  show (List.foldr insertDesc [] l).length = l.length
  induction l with
  | nil => rfl
  | cons x xs ih => simp [List.foldr_cons, length_insertDesc, ih]

theorem initCentroids_length_le (pixels : List RGB) (bound : ℕ) (draws : List ℕ) :
    (initCentroids pixels bound draws).length ≤ bound := by
  unfold initCentroids
  have aux : ∀ (ds : List ℕ) (st : List RGB × List ℕ), st.1.length ≤ bound →
      ((ds.foldl
        (fun (st : List RGB × List ℕ) idx =>
          if st.1.length < bound then
            if idx ∈ st.2 then st
            else (st.1 ++ [pixels.getD idx ⟨0, 0, 0⟩], idx :: st.2)
          else st)
        st).1.length ≤ bound) := by
    intro ds
    induction ds with
    | nil => intro st h; exact h
    | cons d ds ih =>
      intro st h
      rw [List.foldl_cons]
      apply ih
      split_ifs with h1 h2 <;> simp_all <;> omega
  exact aux draws ([], []) (by simp)

theorem extractPalette_length_eq (draws : List ℕ) (pixels : List RGB) (k : ℕ)
    (h : pixels ≠ []) :
    (extractPalette draws pixels k).length =
    (initCentroids pixels (min k pixels.length) draws).length := by
  unfold extractPalette
  rw [if_neg h]
  dsimp only
  rw [List.length_map, length_sortDesc, length_iterate_kmeans]

/-- C2 (amended): the palette length is at most `min(k, pixel_count)` (not
`min(k, count_distinct)`: duplicate pixels can be chosen as distinct
centroids); whenever the initialisation loop ran to completion, the length
equals `min(k, pixel_count)`, so it is 0 iff the input is empty or k = 0. -/
theorem extractPalette_length_spec (draws : List ℕ) (pixels : List RGB) (k : ℕ) :
    (extractPalette draws pixels k).length ≤ min k pixels.length ∧
    ((initCentroids pixels (min k pixels.length) draws).length = min k pixels.length →
      ((extractPalette draws pixels k).length = 0 ↔ pixels = [] ∨ k = 0)) := by
  by_cases h : pixels = []
  · subst h
    exact ⟨by simp [extractPalette], fun _ => by simp [extractPalette]⟩
  · rw [extractPalette_length_eq draws pixels k h]
    refine ⟨initCentroids_length_le pixels (min k pixels.length) draws, fun hc => ?_⟩
    rw [hc]
    constructor
    · intro h0
      rcases Nat.min_eq_zero_iff.mp h0 with h1 | h1
      · exact Or.inr h1
      · exact absurd (List.length_eq_zero.mp h1) h
    · rintro (h1 | h1)
      · exact absurd h1 h
      · simp [h1]

/-- Witness for the completed-initialisation part of C2 (amended). -/
theorem extractPalette_length_spec_witness :
    (extractPalette [0] [⟨1, 2, 3⟩] 1).length = 0 ↔
      ([⟨1, 2, 3⟩] : List RGB) = [] ∨ 1 = 0 :=
  (extractPalette_length_spec [0] [⟨1, 2, 3⟩] 1).2 (by decide)

/-- Counterexample for C2 as stated: on two identical red pixels with
k = 2 the palette has 2 entries, but `min(k, count_distinct) = 1`. -/
theorem extractPalette_distinct_counterexample :
    (extractPalette [0, 1] [⟨255, 0, 0⟩, ⟨255, 0, 0⟩] 2).length = 2 ∧
    min 2 (countDistinct [⟨255, 0, 0⟩, ⟨255, 0, 0⟩]) = 1 := by
  constructor
  · rw [extractPalette_length_eq _ _ _ (by decide)]
    decide
  · decide

theorem mem_insertDesc {z x : RGB} : ∀ {l : List RGB},
    z ∈ insertDesc x l ↔ z = x ∨ z ∈ l := by
  intro l
  induction l with
  | nil => simp [insertDesc]
  | cons y ys ih =>
    simp only [insertDesc]
    split_ifs with h
    · simp [List.mem_cons]
    · simp only [List.mem_cons, ih]
      tauto

theorem pairwise_insertDesc (x : RGB) (l : List RGB)
    (hl : l.Pairwise (fun a b => lumQ b ≤ lumQ a)) :
    (insertDesc x l).Pairwise (fun a b => lumQ b ≤ lumQ a) := by
  induction l with
  | nil => simp [insertDesc]
  | cons y ys ih =>
    rw [List.pairwise_cons] at hl
    obtain ⟨hy, hys⟩ := hl
    simp only [insertDesc]
    split_ifs with hcmp
    · refine List.Pairwise.cons ?_ (List.Pairwise.cons hy hys)
      intro z hz
      rcases List.mem_cons.mp hz with hz | hz
      · exact hz ▸ le_of_lt hcmp
      · exact le_trans (hy z hz) (le_of_lt hcmp)
    · refine List.Pairwise.cons ?_ (ih hys)
      intro z hz
      rcases mem_insertDesc.mp hz with hz | hz
      · exact hz ▸ not_lt.mp hcmp
      · exact hy z hz
  
theorem pairwise_sortDesc (l : List RGB) :
    (sortDesc l).Pairwise (fun a b => lumQ b ≤ lumQ a) := by
  show (List.foldr insertDesc [] l).Pairwise _
  induction l with
  | nil => simp
  | cons x xs ih => exact pairwise_insertDesc x _ ih

theorem mem_sortDesc {z : RGB} : ∀ {l : List RGB}, z ∈ sortDesc l ↔ z ∈ l := by
  intro l
  show z ∈ List.foldr insertDesc [] l ↔ z ∈ l
  induction l with
  | nil => simp
  | cons x xs ih =>
    rw [List.foldr_cons, mem_insertDesc, List.mem_cons, ih]

theorem mem_getD_clusters {acc : List (List RGB)} {i : ℕ} {p : RGB}
    (hp : p ∈ acc.getD i []) : ∃ cl ∈ acc, p ∈ cl := by
  by_cases hi : i < acc.length
  · rw [List.getD_eq_getElem _ _ hi] at hp
    exact ⟨acc[i], List.getElem_mem hi, hp⟩
  · rw [List.getD_eq_default _ _ (le_of_not_lt hi)] at hp
    simp at hp

theorem assignClusters_members (cents pixels : List RGB) :
    ∀ cl ∈ assignClusters cents pixels, ∀ p ∈ cl, p ∈ pixels := by
  unfold assignClusters
  have aux : ∀ (l : List RGB) (acc : List (List RGB)),
      (∀ cl ∈ acc, ∀ p ∈ cl, p ∈ pixels) → (∀ x ∈ l, x ∈ pixels) →
      ∀ cl ∈ l.foldl (fun cls px =>
        let i := nearestCentroidIdx cents px
        cls.set i (cls.getD i [] ++ [px])) acc, ∀ p ∈ cl, p ∈ pixels := by
    intro l
    induction l with
    | nil => intro acc hacc _; exact hacc
    | cons q qs ih =>
      intro acc hacc hl
      rw [List.foldl_cons]
      refine ih _ ?_ (fun x hx => hl x (List.mem_cons_of_mem _ hx))
      intro cl hcl p hp
      rcases List.mem_or_eq_of_mem_set hcl with h1 | h1
      · exact hacc cl h1 p hp
      · subst h1
        rcases List.mem_append.mp hp with h2 | h2
        · obtain ⟨cl', hcl', hp'⟩ := mem_getD_clusters h2
          exact hacc cl' hcl' p hp'
        · rw [List.mem_singleton] at h2
          exact h2 ▸ hl q (List.mem_cons_self q qs)
  refine aux pixels _ ?_ (fun x hx => hx)
  intro cl hcl p hp
  rcases List.mem_map.mp hcl with ⟨_, _, hcl'⟩
  subst hcl'
  simp at hp

theorem mean_fold_proj (n : ℚ) (l : List RGB) : ∀ a : ℚ × ℚ × ℚ,
    (l.foldl (fun (a : ℚ × ℚ × ℚ) px =>
      (a.1 + px.r / n, a.2.1 + px.g / n, a.2.2 + px.b / n)) a) =
    (l.foldl (fun acc px => acc + (px.r : ℚ) / n) a.1,
     l.foldl (fun acc px => acc + (px.g : ℚ) / n) a.2.1,
     l.foldl (fun acc px => acc + (px.b : ℚ) / n) a.2.2) := by
  induction l with
  | nil => intro a; rfl
  | cons p ps ih =>
    intro a
    simp only [List.foldl_cons]
    exact ih _

theorem foldl_addDiv_bounds (n : ℚ) (hn : 0 < n) (bound : ℕ) (f : RGB → ℕ) :
    ∀ l : List RGB, (∀ p ∈ l, f p ≤ bound) → ∀ a : ℚ,
    a ≤ l.foldl (fun acc px => acc + (f px : ℚ) / n) a ∧
    l.foldl (fun acc px => acc + (f px : ℚ) / n) a ≤ a + l.length * bound / n := by
  intro l
  induction l with
  | nil => intro _ a; simp
  | cons p ps ih =>
    intro hf a
    have hp : (f p : ℚ) ≤ bound := by exact_mod_cast hf p (List.mem_cons_self p ps)
    have hdiv1 : 0 ≤ (f p : ℚ) / n := div_nonneg (by positivity) (le_of_lt hn)
    have hdiv2 : (f p : ℚ) / n ≤ (bound : ℚ) / n := by gcongr
    obtain ⟨ih1, ih2⟩ := ih (fun q hq => hf q (List.mem_cons_of_mem _ hq)) (a + f p / n)
    rw [List.foldl_cons]
    constructor
    · linarith
    · have hlen : ((p :: ps).length : ℚ) = (ps.length : ℚ) + 1 := by
        rw [List.length_cons]
        push_cast
        ring
      rw [hlen]
      have : (a + (f p : ℚ) / n) + ps.length * bound / n ≤ a + ((ps.length : ℚ) + 1) * bound / n := by
        have expand : a + ((ps.length : ℚ) + 1) * bound / n =
            a + (ps.length : ℚ) * bound / n + bound / n := by ring
        rw [expand]
        linarith
      linarith

theorem paletteHexToRgb_rgbToHex (c : RGB)
    (hr : c.r ≤ 255) (hg : c.g ≤ 255) (hb : c.b ≤ 255) :
    paletteHexToRgb (rgbToHex c) = c := by
  obtain ⟨r, g, b⟩ := c
  unfold paletteHexToRgb
  rw [hexCore_rgbToHex r g b hr hg hb]
  rfl

theorem meanCentroid_bounded (cluster : List RGB) (hne : cluster ≠ [])
    (h : ∀ p ∈ cluster, p.r ≤ 255 ∧ p.g ≤ 255 ∧ p.b ≤ 255) :
    (meanCentroid cluster).r ≤ 255 ∧ (meanCentroid cluster).g ≤ 255 ∧
    (meanCentroid cluster).b ≤ 255 := by
  have hn : 0 < ((cluster.length : ℚ)) := by
    have h0 : 0 < cluster.length := List.length_pos.mpr hne
    exact_mod_cast h0
  have hr := foldl_addDiv_bounds _ hn 255 RGB.r cluster (fun p hp => (h p hp).1) 0
  have hg := foldl_addDiv_bounds _ hn 255 RGB.g cluster (fun p hp => (h p hp).2.1) 0
  have hb := foldl_addDiv_bounds _ hn 255 RGB.b cluster (fun p hp => (h p hp).2.2) 0
  have hcancel : (0 : ℚ) + (cluster.length : ℚ) * (255 : ℕ) / cluster.length = 255 := by
    field_simp
  rw [hcancel] at hr hg hb
  unfold meanCentroid
  dsimp only
  rw [mean_fold_proj]
  dsimp only
  have c255 : ((255 : ℤ) : ℚ) = 255 := by norm_num
  obtain ⟨jr1, jr2⟩ := jsRound_bounds hr.1 (c255 ▸ hr.2)
  obtain ⟨jg1, jg2⟩ := jsRound_bounds hg.1 (c255 ▸ hg.2)
  obtain ⟨jb1, jb2⟩ := jsRound_bounds hb.1 (c255 ▸ hb.2)
  refine ⟨?_, ?_, ?_⟩ <;> omega

theorem zipWith_mem {α β γ : Type} (f : α → β → γ) :
    ∀ (l1 : List α) (l2 : List β) (z : γ), z ∈ List.zipWith f l1 l2 →
      ∃ a ∈ l1, ∃ b ∈ l2, z = f a b := by
  intro l1
  induction l1 with
  | nil => intro l2 z h; simp at h
  | cons a as ih =>
    intro l2 z h
    cases l2 with
    | nil => simp at h
    | cons b bs =>
      rw [List.zipWith_cons_cons] at h
      rcases List.mem_cons.mp h with h | h
      · exact ⟨a, List.mem_cons_self a as, b, List.mem_cons_self b bs, h⟩
      · obtain ⟨a2, ha2, b2, hb2, hz⟩ := ih bs z h
        exact ⟨a2, List.mem_cons_of_mem _ ha2, b2, List.mem_cons_of_mem _ hb2, hz⟩

theorem kmeansStep_bounded (pixels cents : List RGB)
    (hpx : ∀ p ∈ pixels, p.r ≤ 255 ∧ p.g ≤ 255 ∧ p.b ≤ 255)
    (hc : ∀ c ∈ cents, c.r ≤ 255 ∧ c.g ≤ 255 ∧ c.b ≤ 255) :
    ∀ c ∈ kmeansStep pixels cents, c.r ≤ 255 ∧ c.g ≤ 255 ∧ c.b ≤ 255 := by
  intro c hcmem
  unfold kmeansStep at hcmem
  dsimp only at hcmem
  obtain ⟨c0, hc0, cl, hcl, hz⟩ := zipWith_mem _ cents (assignClusters cents pixels) c hcmem
  subst hz
  split_ifs with hclE
  · exact hc c0 hc0
  · exact meanCentroid_bounded cl hclE
      (fun p hp => hpx p (assignClusters_members cents pixels cl hcl p hp))

theorem initCentroids_bounded (pixels : List RGB) (bound : ℕ) (draws : List ℕ)
    (hpx : ∀ p ∈ pixels, p.r ≤ 255 ∧ p.g ≤ 255 ∧ p.b ≤ 255) :
    ∀ c ∈ initCentroids pixels bound draws,
      c.r ≤ 255 ∧ c.g ≤ 255 ∧ c.b ≤ 255 := by
  have hGetD : ∀ idx : ℕ, (pixels.getD idx ⟨0, 0, 0⟩).r ≤ 255 ∧
      (pixels.getD idx ⟨0, 0, 0⟩).g ≤ 255 ∧ (pixels.getD idx ⟨0, 0, 0⟩).b ≤ 255 := by
    intro idx
    by_cases hi : idx < pixels.length
    · rw [List.getD_eq_getElem _ _ hi]
      exact hpx _ (List.getElem_mem hi)
    · rw [List.getD_eq_default _ _ (le_of_not_lt hi)]
      exact ⟨by decide, by decide, by decide⟩
  unfold initCentroids
  have aux : ∀ (ds : List ℕ) (st : List RGB × List ℕ),
      (∀ c ∈ st.1, c.r ≤ 255 ∧ c.g ≤ 255 ∧ c.b ≤ 255) →
      ∀ c ∈ (ds.foldl (fun (st : List RGB × List ℕ) idx =>
          if st.1.length < bound then
            if idx ∈ st.2 then st
            else (st.1 ++ [pixels.getD idx ⟨0, 0, 0⟩], idx :: st.2)
          else st) st).1, c.r ≤ 255 ∧ c.g ≤ 255 ∧ c.b ≤ 255 := by
    intro ds
    induction ds with
    | nil => intro st h; exact h
    | cons d ds ih =>
      intro st h
      rw [List.foldl_cons]
      apply ih
      split_ifs with h1 h2
      · exact h
      · intro c hcm
        rcases List.mem_append.mp hcm with hcm | hcm
        · exact h c hcm
        · rw [List.mem_singleton] at hcm
          exact hcm ▸ hGetD d
      · exact h
  exact aux draws ([], []) (by simp)

theorem iterate_kmeans_bounded (pixels : List RGB)
    (hpx : ∀ p ∈ pixels, p.r ≤ 255 ∧ p.g ≤ 255 ∧ p.b ≤ 255) (n : ℕ) :
    ∀ cents, (∀ c ∈ cents, c.r ≤ 255 ∧ c.g ≤ 255 ∧ c.b ≤ 255) →
    ∀ c ∈ (kmeansStep pixels)^[n] cents, c.r ≤ 255 ∧ c.g ≤ 255 ∧ c.b ≤ 255 := by
  induction n with
  | zero => intro cents hc; simpa using hc
  | succ n ih =>
    intro cents hc
    rw [Function.iterate_succ_apply]
    exact ih _ (kmeansStep_bounded pixels cents hpx hc)

theorem pairwise_imp_mem {R S : RGB → RGB → Prop} :
    ∀ {l : List RGB}, (∀ a ∈ l, ∀ b ∈ l, R a b → S a b) → l.Pairwise R → l.Pairwise S := by
  intro l
  induction l with
  | nil => intro _ _; exact List.Pairwise.nil
  | cons x xs ih =>
    intro h hp
    rw [List.pairwise_cons] at hp ⊢
    obtain ⟨hx, hxs⟩ := hp
    refine ⟨fun c hc => h x (List.mem_cons_self x xs) c (List.mem_cons_of_mem _ hc) (hx c hc),
      ih (fun a ha c hc => h a (List.mem_cons_of_mem _ ha) c (List.mem_cons_of_mem _ hc)) hxs⟩

/-- C3: for every non-empty 8-bit pixel list and every k, the palette
returned by `extractPalette` is sorted in non-increasing order of the
luminance `0.299*r + 0.587*g + 0.114*b` of its hex-decoded entries. -/
theorem extractPalette_sorted_by_luminance (draws : List ℕ) (pixels : List RGB) (k : ℕ)
    (hne : pixels ≠ [])
    (hbd : ∀ p ∈ pixels, p.r ≤ 255 ∧ p.g ≤ 255 ∧ p.b ≤ 255) :
    (extractPalette draws pixels k).Pairwise
      (fun s t => lumQ (paletteHexToRgb t) ≤ lumQ (paletteHexToRgb s)) := by
  unfold extractPalette
  rw [if_neg hne]
  dsimp only
  have hc0 := initCentroids_bounded pixels (min k pixels.length) draws hbd
  have hcb := iterate_kmeans_bounded pixels hbd 10 _ hc0
  have hsb : ∀ c ∈ sortDesc ((kmeansStep pixels)^[10]
      (initCentroids pixels (min k pixels.length) draws)),
      c.r ≤ 255 ∧ c.g ≤ 255 ∧ c.b ≤ 255 :=
    fun c hc => hcb c (mem_sortDesc.mp hc)
  rw [List.pairwise_map]
  refine pairwise_imp_mem ?_ (pairwise_sortDesc _)
  intro a ha c hc hac
  have hda := paletteHexToRgb_rgbToHex a (hsb a ha).1 (hsb a ha).2.1 (hsb a ha).2.2
  have hdc := paletteHexToRgb_rgbToHex c (hsb c hc).1 (hsb c hc).2.1 (hsb c hc).2.2
  rw [hda, hdc]
  exact hac

/-- Witness for C3 on a concrete red/green input. -/
theorem extractPalette_sorted_witness :
    (extractPalette [0, 1] [⟨255, 0, 0⟩, ⟨0, 255, 0⟩] 2).Pairwise
      (fun s t => lumQ (paletteHexToRgb t) ≤ lumQ (paletteHexToRgb s)) :=
  extractPalette_sorted_by_luminance [0, 1] [⟨255, 0, 0⟩, ⟨0, 255, 0⟩] 2
    (by decide) (by decide)

theorem jsRound_range (q : ℚ) (B : ℕ) (h0 : 0 ≤ q) (hB : q ≤ B) :
    0 ≤ jsRound q ∧ jsRound q ≤ (B : ℤ) := by
  exact jsRound_bounds h0 (by exact_mod_cast hB)


/-- C5 (amended): `rgbToHsl` returns integer hue in the CLOSED range
[0,360] (hue 360 is attainable, e.g. at (255,0,1), so the claimed
half-open [0,360) fails), and saturation and lightness in [0,100]. -/
theorem rgbToHsl_range (c : RGB) (hr : c.r ≤ 255) (hg : c.g ≤ 255) (hb : c.b ≤ 255) :
    0 ≤ (rgbToHsl c).h ∧ (rgbToHsl c).h ≤ 360 ∧
    0 ≤ (rgbToHsl c).s ∧ (rgbToHsl c).s ≤ 100 ∧
    0 ≤ (rgbToHsl c).l ∧ (rgbToHsl c).l ≤ 100 := by
  obtain ⟨r, g, b⟩ := c
  simp only at hr hg hb
  simp only [rgbToHsl]
  set rq : ℚ := (r : ℚ) / 255 with hrq
  set gq : ℚ := (g : ℚ) / 255 with hgq
  set bq : ℚ := (b : ℚ) / 255 with hbq
  set mx : ℚ := max rq (max gq bq) with hmx
  set mn : ℚ := min rq (min gq bq) with hmn
  have hr1 : (0 : ℚ) ≤ rq := by rw [hrq]; positivity
  have hg1 : (0 : ℚ) ≤ gq := by rw [hgq]; positivity
  have hb1 : (0 : ℚ) ≤ bq := by rw [hbq]; positivity
  have hr2 : rq ≤ 1 := by rw [hrq, div_le_one (by norm_num)]; exact_mod_cast hr
  have hg2 : gq ≤ 1 := by rw [hgq, div_le_one (by norm_num)]; exact_mod_cast hg
  have hb2 : bq ≤ 1 := by rw [hbq, div_le_one (by norm_num)]; exact_mod_cast hb
  have hmx1 : mx ≤ 1 := max_le hr2 (max_le hg2 hb2)
  have hmx0 : 0 ≤ mx := le_trans hr1 (le_max_left _ _)
  have hmn0 : 0 ≤ mn := le_min hr1 (le_min hg1 hb1)
  have hmnmx : mn ≤ mx := le_trans (min_le_left _ _) (le_max_left _ _)
  have hgmx : gq ≤ mx := le_trans (le_max_left gq bq) (le_max_right _ _)
  have hbmx : bq ≤ mx := le_trans (le_max_right gq bq) (le_max_right _ _)
  have hrmx : rq ≤ mx := le_max_left _ _
  have hmnr : mn ≤ rq := min_le_left _ _
  have hmng : mn ≤ gq := le_trans (min_le_right _ _) (min_le_left _ _)
  have hmnb : mn ≤ bq := le_trans (min_le_right _ _) (min_le_right _ _)
  have hLlo : 0 ≤ (mx + mn) / 2 * 100 := by linarith
  have hLhi : (mx + mn) / 2 * 100 ≤ (100 : ℕ) := by push_cast; linarith
  have hL := jsRound_range _ 100 hLlo hLhi
  by_cases heq : mx = mn
  · rw [if_pos heq]
    dsimp only
    have hz := jsRound_range (0 * 360) 360 (by norm_num) (by norm_num)
    have hz2 := jsRound_range (0 * 100) 100 (by norm_num) (by norm_num)
    refine ⟨hz.1, by exact_mod_cast hz.2, hz2.1, by exact_mod_cast hz2.2,
      hL.1, by exact_mod_cast hL.2⟩
  · rw [if_neg heq]
    dsimp only
    have hmnlt : mn < mx := lt_of_le_of_ne hmnmx (fun h => heq h.symm)
    have hd : 0 < mx - mn := by linarith
    have hs01 : 0 ≤ (if (mx + mn) / 2 > 1/2 then (mx - mn) / (2 - mx - mn)
        else (mx - mn) / (mx + mn)) ∧
        (if (mx + mn) / 2 > 1/2 then (mx - mn) / (2 - mx - mn)
        else (mx - mn) / (mx + mn)) ≤ 1 := by
      split_ifs with hcond
      · have hden : 0 < 2 - mx - mn := by linarith
        constructor
        · exact div_nonneg (by linarith) (le_of_lt hden)
        · rw [div_le_one hden]; linarith
      · have hden : 0 < mx + mn := by
          have h0 : 0 < mx := lt_of_le_of_lt hmn0 hmnlt
          linarith
        constructor
        · exact div_nonneg (by linarith) (le_of_lt hden)
        · rw [div_le_one hden]; linarith
    have hh01 : 0 ≤ (if mx = rq then ((gq - bq) / (mx - mn) +
          if gq < bq then (6 : ℚ) else 0) / 6
        else if mx = gq then ((bq - rq) / (mx - mn) + 2) / 6
        else ((rq - gq) / (mx - mn) + 4) / 6) ∧
        (if mx = rq then ((gq - bq) / (mx - mn) + if gq < bq then (6 : ℚ) else 0) / 6
        else if mx = gq then ((bq - rq) / (mx - mn) + 2) / 6
        else ((rq - gq) / (mx - mn) + 4) / 6) ≤ 1 := by
      split_ifs with h1 h2 h3
      · have hx1 : (gq - bq) / (mx - mn) ≤ 0 := by
          rw [div_nonpos_iff]
          exact Or.inr ⟨by linarith, by linarith⟩
        have hx2 : -1 ≤ (gq - bq) / (mx - mn) := by
          rw [le_div_iff hd]; linarith
        constructor <;> linarith
      · have hx1 : (gq - bq) / (mx - mn) ≤ 1 := by
          rw [div_le_one hd]; linarith
        have hx2 : 0 ≤ (gq - bq) / (mx - mn) := by
          apply div_nonneg _ (le_of_lt hd)
          have := not_lt.mp h2
          linarith
        constructor <;> linarith
      · have hx1 : (bq - rq) / (mx - mn) ≤ 1 := by
          rw [div_le_one hd]; linarith
        have hx2 : -1 ≤ (bq - rq) / (mx - mn) := by
          rw [le_div_iff hd]; linarith
        constructor <;> linarith
      · have hx1 : (rq - gq) / (mx - mn) ≤ 1 := by
          rw [div_le_one hd]; linarith
        have hx2 : -1 ≤ (rq - gq) / (mx - mn) := by
          rw [le_div_iff hd]; linarith
        constructor <;> linarith
    have hhB := jsRound_range ((if mx = rq then ((gq - bq) / (mx - mn) +
          if gq < bq then (6 : ℚ) else 0) / 6
        else if mx = gq then ((bq - rq) / (mx - mn) + 2) / 6
        else ((rq - gq) / (mx - mn) + 4) / 6) * 360) 360
      (mul_nonneg hh01.1 (by norm_num))
      (by push_cast; linarith [hh01.2])
    have hsB := jsRound_range ((if (mx + mn) / 2 > 1/2 then (mx - mn) / (2 - mx - mn)
        else (mx - mn) / (mx + mn)) * 100) 100
      (mul_nonneg hs01.1 (by norm_num))
      (by push_cast; linarith [hs01.2])
    refine ⟨hhB.1, by exact_mod_cast hhB.2, hsB.1, by exact_mod_cast hsB.2,
      hL.1, by exact_mod_cast hL.2⟩

/-- Witness for C5 (amended) at a concrete pixel. -/
theorem rgbToHsl_range_witness :
    0 ≤ (rgbToHsl ⟨10, 200, 30⟩).h ∧ (rgbToHsl ⟨10, 200, 30⟩).h ≤ 360 ∧
    0 ≤ (rgbToHsl ⟨10, 200, 30⟩).s ∧ (rgbToHsl ⟨10, 200, 30⟩).s ≤ 100 ∧
    0 ≤ (rgbToHsl ⟨10, 200, 30⟩).l ∧ (rgbToHsl ⟨10, 200, 30⟩).l ≤ 100 :=
  rgbToHsl_range ⟨10, 200, 30⟩ (by decide) (by decide) (by decide)

/-- Counterexample for C7: the successful heuristic path tags its result
`provider = "simple"`, not `"heuristic"`. -/
theorem removeBackgroundSimple_not_heuristic :
    (removeBackgroundSimple id ⟨1, 1, fun _ _ => ⟨0, 0, 0, 255⟩⟩).provider ≠
      "heuristic" := by
  decide

/-- C7 (amended): whenever the heuristic corner-sampled path succeeds, its
result is tagged with the provider string `"simple"` (and `success =
true`), which is the tag callers must use to distinguish it. -/
theorem removeBackgroundSimple_provider (blur : JImage → JImage) (img : JImage) :
    (removeBackgroundSimple blur img).provider = "simple" ∧
    (removeBackgroundSimple blur img).success = true :=
  ⟨rfl, rfl⟩

/-- C9: on two colors equal in R, G, B whose alpha difference exceeds the
(nonnegative) tolerance, the background-removal similarity returns true
(alpha ignored) while the auto-crop similarity returns false (alpha
checked first). -/
theorem similarity_alpha_divergence (c1 c2 : RGBA) (tol : ℤ) (htol : 0 ≤ tol)
    (hr : c1.r = c2.r) (hg : c1.g = c2.g) (hb : c1.b = c2.b)
    (ha : tol < |c1.a - c2.a|) :
    bgColorSimilar c1 c2 tol = true ∧ cropColorSimilar c1 c2 tol = false := by
  constructor
  · simp only [bgColorSimilar, hr, hg, hb, sub_self, abs_zero, decide_eq_true_eq]
    exact ⟨htol, htol, htol⟩
  · unfold cropColorSimilar
    rw [if_pos ha]

/-- Witness for C9 at concrete colors. -/
theorem similarity_alpha_divergence_witness :
    bgColorSimilar ⟨5, 6, 7, 255⟩ ⟨5, 6, 7, 0⟩ 10 = true ∧
    cropColorSimilar ⟨5, 6, 7, 255⟩ ⟨5, 6, 7, 0⟩ 10 = false :=
  similarity_alpha_divergence ⟨5, 6, 7, 255⟩ ⟨5, 6, 7, 0⟩ 10
    (by decide) (by decide) (by decide) (by decide) (by decide)

/-- C10: the private hex decoder of the dominant-color path is total: on
every string the shared regex rejects it returns the zero pixel
`{r:0, g:0, b:0}` instead of raising, while the ColorSpace `hexToRgb`
throws (`none`) on the same input. -/
theorem paletteHexToRgb_total_default (s : String) (h : hexMatches s = false) :
    paletteHexToRgb s = ⟨0, 0, 0⟩ ∧ hexToRgb s = none := by
  unfold hexMatches at h
  unfold paletteHexToRgb hexToRgb
  rcases hcase : hexCore s.data with _ | v
  · simp
  · rw [hcase] at h
    simp at h

/-- Witness for C10 at the malformed string "xyz". -/
theorem paletteHexToRgb_total_default_witness :
    paletteHexToRgb "xyz" = ⟨0, 0, 0⟩ ∧ hexToRgb "xyz" = none :=
  paletteHexToRgb_total_default "xyz" (by decide)

theorem jsRound_nonneg {q : ℚ} (h : 0 ≤ q) : 0 ≤ jsRound q := by
  unfold jsRound
  exact Int.le_floor.mpr (by push_cast; linarith)

theorem mem_scanCoords {w h x y : ℕ} : (x, y) ∈ scanCoords w h ↔ x < w ∧ y < h := by
  unfold scanCoords
  simp only [List.mem_bind, List.mem_map, List.mem_range, Prod.mk.injEq]
  constructor
  · rintro ⟨y1, hy1, x1, hx1, hx, hy⟩
    exact ⟨hx ▸ hx1, hy ▸ hy1⟩
  · rintro ⟨hx, hy⟩
    exact ⟨y, hy, x, hx, rfl, rfl⟩

theorem contentFold_mono (img : JImage) (bg : RGBA) (tol : ℤ) :
    ∀ (l : List (ℕ × ℕ)) (st : ℕ × ℕ × ℕ × ℕ),
    (l.foldl (fun (st : ℕ × ℕ × ℕ × ℕ) xy =>
      if cropColorSimilar (img.pix xy.1 xy.2) bg tol then st
      else (min st.1 xy.1, min st.2.1 xy.2, max st.2.2.1 xy.1, max st.2.2.2 xy.2))
      st).1 ≤ st.1 ∧
    (l.foldl (fun (st : ℕ × ℕ × ℕ × ℕ) xy =>
      if cropColorSimilar (img.pix xy.1 xy.2) bg tol then st
      else (min st.1 xy.1, min st.2.1 xy.2, max st.2.2.1 xy.1, max st.2.2.2 xy.2))
      st).2.1 ≤ st.2.1 ∧
    st.2.2.1 ≤ (l.foldl (fun (st : ℕ × ℕ × ℕ × ℕ) xy =>
      if cropColorSimilar (img.pix xy.1 xy.2) bg tol then st
      else (min st.1 xy.1, min st.2.1 xy.2, max st.2.2.1 xy.1, max st.2.2.2 xy.2))
      st).2.2.1 ∧
    st.2.2.2 ≤ (l.foldl (fun (st : ℕ × ℕ × ℕ × ℕ) xy =>
      if cropColorSimilar (img.pix xy.1 xy.2) bg tol then st
      else (min st.1 xy.1, min st.2.1 xy.2, max st.2.2.1 xy.1, max st.2.2.2 xy.2))
      st).2.2.2 := by
  intro l
  induction l with
  | nil => intro st; exact ⟨le_refl _, le_refl _, le_refl _, le_refl _⟩
  | cons xy tl ih =>
    intro st
    rw [List.foldl_cons]
    split_ifs with hsim
    · exact ih st
    · obtain ⟨m1, m2, m3, m4⟩ :=
        ih (min st.1 xy.1, min st.2.1 xy.2, max st.2.2.1 xy.1, max st.2.2.2 xy.2)
      dsimp only at m1 m2 m3 m4
      exact ⟨le_trans m1 (min_le_left _ _), le_trans m2 (min_le_left _ _),
        le_trans (le_max_left _ _) m3, le_trans (le_max_left _ _) m4⟩

theorem contentFold_le (img : JImage) (bg : RGBA) (tol : ℤ) :
    ∀ (l : List (ℕ × ℕ)) (st : ℕ × ℕ × ℕ × ℕ) (x0 y0 : ℕ), (x0, y0) ∈ l →
    cropColorSimilar (img.pix x0 y0) bg tol = false →
    (l.foldl (fun (st : ℕ × ℕ × ℕ × ℕ) xy =>
      if cropColorSimilar (img.pix xy.1 xy.2) bg tol then st
      else (min st.1 xy.1, min st.2.1 xy.2, max st.2.2.1 xy.1, max st.2.2.2 xy.2))
      st).1 ≤ x0 ∧
    (l.foldl (fun (st : ℕ × ℕ × ℕ × ℕ) xy =>
      if cropColorSimilar (img.pix xy.1 xy.2) bg tol then st
      else (min st.1 xy.1, min st.2.1 xy.2, max st.2.2.1 xy.1, max st.2.2.2 xy.2))
      st).2.1 ≤ y0 ∧
    x0 ≤ (l.foldl (fun (st : ℕ × ℕ × ℕ × ℕ) xy =>
      if cropColorSimilar (img.pix xy.1 xy.2) bg tol then st
      else (min st.1 xy.1, min st.2.1 xy.2, max st.2.2.1 xy.1, max st.2.2.2 xy.2))
      st).2.2.1 ∧
    y0 ≤ (l.foldl (fun (st : ℕ × ℕ × ℕ × ℕ) xy =>
      if cropColorSimilar (img.pix xy.1 xy.2) bg tol then st
      else (min st.1 xy.1, min st.2.1 xy.2, max st.2.2.1 xy.1, max st.2.2.2 xy.2))
      st).2.2.2 := by
  intro l
  induction l with
  | nil => intro st x0 y0 hmem; exact absurd hmem (List.not_mem_nil _)
  | cons xy tl ih =>
    intro st x0 y0 hmem hsim
    rw [List.foldl_cons]
    rcases List.mem_cons.mp hmem with heq | hmem2
    · subst heq
      dsimp only
      rw [if_neg (by rw [hsim]; exact Bool.false_ne_true)]
      obtain ⟨m1, m2, m3, m4⟩ := contentFold_mono img bg tol tl
        (min st.1 x0, min st.2.1 y0, max st.2.2.1 x0, max st.2.2.2 y0)
      exact ⟨le_trans m1 (min_le_right _ _), le_trans m2 (min_le_right _ _),
        le_trans (le_max_right _ _) m3, le_trans (le_max_right _ _) m4⟩
    · exact ih _ x0 y0 hmem2 hsim

theorem contentFold_ub (img : JImage) (bg : RGBA) (tol : ℤ) (Wm Hm : ℕ) :
    ∀ (l : List (ℕ × ℕ)) (st : ℕ × ℕ × ℕ × ℕ),
    (∀ p ∈ l, p.1 ≤ Wm ∧ p.2 ≤ Hm) → st.2.2.1 ≤ Wm → st.2.2.2 ≤ Hm →
    (l.foldl (fun (st : ℕ × ℕ × ℕ × ℕ) xy =>
      if cropColorSimilar (img.pix xy.1 xy.2) bg tol then st
      else (min st.1 xy.1, min st.2.1 xy.2, max st.2.2.1 xy.1, max st.2.2.2 xy.2))
      st).2.2.1 ≤ Wm ∧
    (l.foldl (fun (st : ℕ × ℕ × ℕ × ℕ) xy =>
      if cropColorSimilar (img.pix xy.1 xy.2) bg tol then st
      else (min st.1 xy.1, min st.2.1 xy.2, max st.2.2.1 xy.1, max st.2.2.2 xy.2))
      st).2.2.2 ≤ Hm := by
  intro l
  induction l with
  | nil => intro st _ h1 h2; exact ⟨h1, h2⟩
  | cons xy tl ih =>
    intro st hl h1 h2
    rw [List.foldl_cons]
    have hxy := hl xy (List.mem_cons_self xy tl)
    refine ih _ (fun p hp => hl p (List.mem_cons_of_mem _ hp)) ?_ ?_ <;>
      split_ifs with hsim <;> first
      | omega
      | (dsimp only; omega)

theorem contentBounds_spec (img : JImage) (bg : RGBA) (tol : ℤ) (x0 y0 : ℕ)
    (hx0 : x0 < img.width) (hy0 : y0 < img.height)
    (hsim : cropColorSimilar (img.pix x0 y0) bg tol = false) :
    (contentBounds img bg tol).1 ≤ x0 ∧ (contentBounds img bg tol).2.1 ≤ y0 ∧
    x0 ≤ (contentBounds img bg tol).2.2.1 ∧ y0 ≤ (contentBounds img bg tol).2.2.2 ∧
    (contentBounds img bg tol).2.2.1 ≤ img.width - 1 ∧
    (contentBounds img bg tol).2.2.2 ≤ img.height - 1 := by
  have hmem : (x0, y0) ∈ scanCoords img.width img.height :=
    mem_scanCoords.mpr ⟨hx0, hy0⟩
  have hle := contentFold_le img bg tol (scanCoords img.width img.height)
    (img.width, img.height, 0, 0) x0 y0 hmem hsim
  have hub := contentFold_ub img bg tol (img.width - 1) (img.height - 1)
    (scanCoords img.width img.height) (img.width, img.height, 0, 0)
    (by
      rintro ⟨px, py⟩ hp
      have := mem_scanCoords.mp hp
      omega)
    (by dsimp only; omega) (by dsimp only; omega)
  exact ⟨hle.1, hle.2.1, hle.2.2.1, hle.2.2.2, hub.1, hub.2⟩

/-- C6: on any image with at least one pixel not within tolerance of the
corner-estimated background, the box computed by the auto-crop detector
satisfies `0 ≤ x`, `0 ≤ y`, `x + width ≤ W`, `y + height ≤ H`,
`width ≥ 1`, `height ≥ 1`, for every tolerance and every nonnegative
padding percentage. -/
theorem autoCropBox_within_bounds (img : JImage) (tolerance : ℤ) (padding : ℚ)
    (hpad : 0 ≤ padding) (hw : 1 ≤ img.width) (hh : 1 ≤ img.height)
    (hcontent : ∃ x y, x < img.width ∧ y < img.height ∧
      cropColorSimilar (img.pix x y) (getMostCommonColor (cornerColors img))
        tolerance = false) :
    0 ≤ (autoCropBox img tolerance padding).1 ∧
    0 ≤ (autoCropBox img tolerance padding).2.1 ∧
    (autoCropBox img tolerance padding).1 +
      (autoCropBox img tolerance padding).2.2.1 ≤ (img.width : ℤ) ∧
    (autoCropBox img tolerance padding).2.1 +
      (autoCropBox img tolerance padding).2.2.2 ≤ (img.height : ℤ) ∧
    1 ≤ (autoCropBox img tolerance padding).2.2.1 ∧
    1 ≤ (autoCropBox img tolerance padding).2.2.2 := by
  obtain ⟨x0, y0, hx0, hy0, hsim⟩ := hcontent
  unfold autoCropBox
  dsimp only
  set bg := getMostCommonColor (cornerColors img) with hbg
  obtain ⟨hb1, hb2, hb3, hb4, hb5, hb6⟩ :=
    contentBounds_spec img bg tolerance x0 y0 hx0 hy0 hsim
  set B := contentBounds img bg tolerance with hB
  set cropW : ℤ := (B.2.2.1 : ℤ) - (B.1 : ℤ) + 1 with hcw
  set cropH : ℤ := (B.2.2.2 : ℤ) - (B.2.1 : ℤ) + 1 with hch
  set padX := jsRound ((cropW : ℚ) * padding / 100) with hpx
  set padY := jsRound ((cropH : ℚ) * padding / 100) with hpy
  have hcw1 : (1 : ℤ) ≤ cropW := by omega
  have hch1 : (1 : ℤ) ≤ cropH := by omega
  have hpadX0 : 0 ≤ padX := by
    rw [hpx]
    apply jsRound_nonneg
    have h1 : (0 : ℚ) ≤ (cropW : ℚ) := by exact_mod_cast (by omega : (0:ℤ) ≤ cropW)
    exact div_nonneg (mul_nonneg h1 hpad) (by norm_num)
  have hpadY0 : 0 ≤ padY := by
    rw [hpy]
    apply jsRound_nonneg
    have h1 : (0 : ℚ) ≤ (cropH : ℚ) := by exact_mod_cast (by omega : (0:ℤ) ≤ cropH)
    exact div_nonneg (mul_nonneg h1 hpad) (by norm_num)
  refine ⟨?_, ?_, ?_, ?_, ?_, ?_⟩ <;> omega

/-- Witness for C6 on a concrete 2-by-2 image: three white corners, one
black content pixel at (1,1), tolerance 10, padding 0. -/
theorem autoCropBox_within_bounds_witness :
    0 ≤ (autoCropBox ⟨2, 2, fun x y =>
        if x = 1 && y = 1 then ⟨0, 0, 0, 255⟩ else ⟨255, 255, 255, 255⟩⟩ 10 0).1 ∧
    0 ≤ (autoCropBox ⟨2, 2, fun x y =>
        if x = 1 && y = 1 then ⟨0, 0, 0, 255⟩ else ⟨255, 255, 255, 255⟩⟩ 10 0).2.1 ∧
    (autoCropBox ⟨2, 2, fun x y =>
        if x = 1 && y = 1 then ⟨0, 0, 0, 255⟩ else ⟨255, 255, 255, 255⟩⟩ 10 0).1 +
      (autoCropBox ⟨2, 2, fun x y =>
        if x = 1 && y = 1 then ⟨0, 0, 0, 255⟩ else ⟨255, 255, 255, 255⟩⟩ 10 0).2.2.1 ≤
      ((2 : ℕ) : ℤ) ∧
    (autoCropBox ⟨2, 2, fun x y =>
        if x = 1 && y = 1 then ⟨0, 0, 0, 255⟩ else ⟨255, 255, 255, 255⟩⟩ 10 0).2.1 +
      (autoCropBox ⟨2, 2, fun x y =>
        if x = 1 && y = 1 then ⟨0, 0, 0, 255⟩ else ⟨255, 255, 255, 255⟩⟩ 10 0).2.2.2 ≤
      ((2 : ℕ) : ℤ) ∧
    1 ≤ (autoCropBox ⟨2, 2, fun x y =>
        if x = 1 && y = 1 then ⟨0, 0, 0, 255⟩ else ⟨255, 255, 255, 255⟩⟩ 10 0).2.2.1 ∧
    1 ≤ (autoCropBox ⟨2, 2, fun x y =>
        if x = 1 && y = 1 then ⟨0, 0, 0, 255⟩ else ⟨255, 255, 255, 255⟩⟩ 10 0).2.2.2 :=
  autoCropBox_within_bounds _ 10 0 (by norm_num) (by decide) (by decide)
    ⟨1, 1, by decide, by decide, by decide⟩

theorem closestFold_aux (D : String → ℤ)
    (step : String × Option ℤ → String → String × Option ℤ)
    (hstep : ∀ b m c, step (b, some m) c =
      if D c < m then (c, some (D c)) else (b, some m)) :
    ∀ (l : List String) (b : String),
    ∃ l1 l2, b :: l = l1 ++ (l.foldl step (b, some (D b))).1 :: l2 ∧
      (∀ c ∈ l1, D (l.foldl step (b, some (D b))).1 < D c) ∧
      (∀ c ∈ l2, D (l.foldl step (b, some (D b))).1 ≤ D c) ∧
      D (l.foldl step (b, some (D b))).1 ≤ D b := by
  intro l
  induction l with
  | nil =>
    intro b
    exact ⟨[], [], rfl, by simp, by simp, le_refl _⟩
  | cons c cs ih =>
    intro b
    rw [List.foldl_cons, hstep]
    by_cases hcb : D c < D b
    · rw [if_pos hcb]
      obtain ⟨l1, l2, heq, hstrict, hweak, hle⟩ := ih c
      refine ⟨b :: l1, l2, ?_, ?_, hweak, le_of_lt (lt_of_le_of_lt hle hcb)⟩
      · rw [List.cons_append, ← heq]
      · intro z hz
        rcases List.mem_cons.mp hz with hz | hz
        · subst hz
          exact lt_of_le_of_lt hle hcb
        · exact hstrict z hz
    · rw [if_neg hcb]
      obtain ⟨l1, l2, heq, hstrict, hweak, hle⟩ := ih b
      cases l1 with
      | nil =>
        rw [List.nil_append] at heq
        injection heq with h1 h2
        refine ⟨[], c :: cs, ?_, by simp, ?_, hle⟩
        · rw [List.nil_append, ← h1]
        · intro z hz
          rcases List.mem_cons.mp hz with hz | hz
          · subst hz
            rw [← h1]
            exact not_lt.mp hcb
          · exact hweak z (h2 ▸ hz)
      | cons b1 l1t =>
        rw [List.cons_append] at heq
        injection heq with h1 h2
        have hbstrict : D (cs.foldl step (b, some (D b))).1 < D b := by
          have hx := hstrict b1 (List.mem_cons_self b1 l1t)
          exact h1 ▸ hx
        refine ⟨b :: c :: l1t, l2, ?_, ?_, hweak, hle⟩
        · rw [List.cons_append, List.cons_append, ← h2]
        · intro z hz
          rcases List.mem_cons.mp hz with hz | hz
          · subst hz
            exact hbstrict
          rcases List.mem_cons.mp hz with hz | hz
          · subst hz
            exact lt_of_lt_of_le hbstrict (not_lt.mp hcb)
          · exact hstrict z (List.mem_cons_of_mem _ hz)

theorem maxFold_aux (T : String → ℕ)
    (step : String × ℕ → String → String × ℕ)
    (hstep : ∀ b n c, step (b, n) c = if n < T c then (c, T c) else (b, n)) :
    ∀ (l : List String) (b : String),
    ∃ l1 l2, b :: l = l1 ++ (l.foldl step (b, T b)).1 :: l2 ∧
      (∀ c ∈ l1, T c < T (l.foldl step (b, T b)).1) ∧
      (∀ c ∈ l2, T c ≤ T (l.foldl step (b, T b)).1) ∧
      T b ≤ T (l.foldl step (b, T b)).1 := by
  intro l
  induction l with
  | nil =>
    intro b
    exact ⟨[], [], rfl, by simp, by simp, le_refl _⟩
  | cons c cs ih =>
    intro b
    rw [List.foldl_cons, hstep]
    by_cases hcb : T b < T c
    · rw [if_pos hcb]
      obtain ⟨l1, l2, heq, hstrict, hweak, hle⟩ := ih c
      refine ⟨b :: l1, l2, ?_, ?_, hweak, le_of_lt (lt_of_lt_of_le hcb hle)⟩
      · rw [List.cons_append, ← heq]
      · intro z hz
        rcases List.mem_cons.mp hz with hz | hz
        · subst hz
          exact lt_of_lt_of_le hcb hle
        · exact hstrict z hz
    · rw [if_neg hcb]
      obtain ⟨l1, l2, heq, hstrict, hweak, hle⟩ := ih b
      cases l1 with
      | nil =>
        rw [List.nil_append] at heq
        injection heq with h1 h2
        refine ⟨[], c :: cs, ?_, by simp, ?_, hle⟩
        · rw [List.nil_append, ← h1]
        · intro z hz
          rcases List.mem_cons.mp hz with hz | hz
          · subst hz
            rw [← h1]
            exact not_lt.mp hcb
          · exact hweak z (h2 ▸ hz)
      | cons b1 l1t =>
        rw [List.cons_append] at heq
        injection heq with h1 h2
        have hbstrict : T b < T (cs.foldl step (b, T b)).1 := by
          have hx := hstrict b1 (List.mem_cons_self b1 l1t)
          exact h1 ▸ hx
        refine ⟨b :: c :: l1t, l2, ?_, ?_, hweak, hle⟩
        · rw [List.cons_append, List.cons_append, ← h2]
        · intro z hz
          rcases List.mem_cons.mp hz with hz | hz
          · subst hz
            exact hbstrict
          rcases List.mem_cons.mp hz with hz | hz
          · subst hz
            exact lt_of_le_of_lt (not_lt.mp hcb) hbstrict
          · exact hstrict z (List.mem_cons_of_mem _ hz)

theorem foldl_firstSeen_prefix {α : Type} [DecidableEq α] :
    ∀ (l acc : List α), ∃ ext,
      l.foldl (fun acc c => if c ∈ acc then acc else acc ++ [c]) acc = acc ++ ext := by
  intro l
  induction l with
  | nil => intro acc; exact ⟨[], by simp⟩
  | cons c cs ih =>
    intro acc
    rw [List.foldl_cons]
    by_cases h : c ∈ acc
    · rw [if_pos h]
      exact ih acc
    · rw [if_neg h]
      obtain ⟨ext, hext⟩ := ih (acc ++ [c])
      refine ⟨c :: ext, ?_⟩
      rw [hext, List.append_assoc]
      rfl

theorem mem_foldl_firstSeen {α : Type} [DecidableEq α] (z : α) :
    ∀ (l acc : List α),
      (z ∈ l.foldl (fun acc c => if c ∈ acc then acc else acc ++ [c]) acc ↔
        z ∈ acc ∨ z ∈ l) := by
  intro l
  induction l with
  | nil => intro acc; simp
  | cons c cs ih =>
    intro acc
    rw [List.foldl_cons]
    by_cases h : c ∈ acc
    · rw [if_pos h, ih]
      constructor
      · rintro (hz | hz)
        · exact Or.inl hz
        · exact Or.inr (List.mem_cons_of_mem _ hz)
      · rintro (hz | hz)
        · exact Or.inl hz
        · rcases List.mem_cons.mp hz with hz | hz
          · exact Or.inl (hz ▸ h)
          · exact Or.inr hz
    · rw [if_neg h, ih]
      simp only [List.mem_append, List.mem_singleton, List.mem_cons]
      tauto

theorem mem_firstSeen {α : Type} [DecidableEq α] (z : α) (l : List α) :
    z ∈ firstSeen l ↔ z ∈ l := by
  unfold firstSeen
  rw [mem_foldl_firstSeen]
  simp

theorem firstSeen_cons {α : Type} [DecidableEq α] (p0 : α) (rest : List α) :
    ∃ ext, firstSeen (p0 :: rest) = p0 :: ext := by
  unfold firstSeen
  rw [List.foldl_cons, if_neg (List.not_mem_nil p0)]
  obtain ⟨ext, hext⟩ := foldl_firstSeen_prefix rest ([] ++ [p0])
  exact ⟨ext, by rw [hext]; simp⟩

/-- C8: for every pixel list and non-empty palette, `findDominantColor`
returns the palette entry with the largest number of nearest pixels
(nearest under Euclidean distance on the hex-decoded RGB values), with
both nearest-entry ties and highest-count ties broken by first-seen order
(strictly better than everything before it, at least as good as everything
after it); for the empty palette it returns the default `"#000000"`. -/
theorem findDominantColor_spec (pixels : List RGB) (palette : List String)
    (hne : palette ≠ []) :
    (∀ px : RGB, ∃ n1 n2,
      palette = n1 ++ closestPaletteColor palette px :: n2 ∧
      (∀ c ∈ n1, colorDistanceSq (rgbToHex px) (closestPaletteColor palette px) <
        colorDistanceSq (rgbToHex px) c) ∧
      (∀ c ∈ n2, colorDistanceSq (rgbToHex px) (closestPaletteColor palette px) ≤
        colorDistanceSq (rgbToHex px) c)) ∧
    findDominantColor pixels palette ∈ palette ∧
    (∀ c ∈ palette, dominantTally pixels palette c ≤
      dominantTally pixels palette (findDominantColor pixels palette)) ∧
    (∃ l1 l2, firstSeen palette = l1 ++ findDominantColor pixels palette :: l2 ∧
      (∀ c ∈ l1, dominantTally pixels palette c <
        dominantTally pixels palette (findDominantColor pixels palette)) ∧
      (∀ c ∈ l2, dominantTally pixels palette c ≤
        dominantTally pixels palette (findDominantColor pixels palette))) ∧
    findDominantColor pixels [] = "#000000" := by
  obtain ⟨p0, rest, rfl⟩ : ∃ p0 rest, palette = p0 :: rest := by
    cases palette with
    | nil => exact absurd rfl hne
    | cons a l => exact ⟨a, l, rfl⟩
  obtain ⟨ext, hfs⟩ := firstSeen_cons p0 rest
  have hunf2 : findDominantColor pixels (p0 :: rest) =
      (ext.foldl (dominantStep pixels (p0 :: rest))
        (p0, dominantTally pixels (p0 :: rest) p0)).1 := by
    unfold findDominantColor
    rw [if_neg (by simp), hfs, List.foldl_cons]
    have hfirst : dominantStep pixels (p0 :: rest) ((p0 :: rest).headD "#000000", 0) p0 =
        (p0, dominantTally pixels (p0 :: rest) p0) := by
      show dominantStep pixels (p0 :: rest) (p0, 0) p0 = _
      unfold dominantStep
      dsimp only
      split_ifs with h
      · rfl
      · have h0 : dominantTally pixels (p0 :: rest) p0 = 0 := by omega
        rw [h0]
    rw [hfirst]
  obtain ⟨l1, l2, heq, hstrict, hweak, _⟩ :=
    maxFold_aux (dominantTally pixels (p0 :: rest))
      (dominantStep pixels (p0 :: rest)) (fun b n c => rfl) ext p0
  have hdecomp : firstSeen (p0 :: rest) =
      l1 ++ findDominantColor pixels (p0 :: rest) :: l2 := by
    rw [hfs, heq, hunf2]
  have hmem : findDominantColor pixels (p0 :: rest) ∈ p0 :: rest := by
    rw [← mem_firstSeen, hdecomp]
    exact List.mem_append.mpr (Or.inr (List.mem_cons_self _ _))
  refine ⟨?_, hmem, ?_, ⟨l1, l2, hdecomp, ?_, ?_⟩, by rfl⟩
  · intro px
    have hunf : closestPaletteColor (p0 :: rest) px =
        (rest.foldl (closestStep px)
          (p0, some (colorDistanceSq (rgbToHex px) p0))).1 := by
      unfold closestPaletteColor
      rw [List.foldl_cons]
      rfl
    obtain ⟨n1, n2, heqc, hsc, hwc, _⟩ :=
      closestFold_aux (colorDistanceSq (rgbToHex px)) (closestStep px)
        (fun b m c => rfl) rest p0
    rw [hunf]
    exact ⟨n1, n2, heqc, hsc, hwc⟩
  · intro c hc
    have hcf : c ∈ firstSeen (p0 :: rest) := (mem_firstSeen c _).mpr hc
    rw [hdecomp] at hcf
    rcases List.mem_append.mp hcf with hcf | hcf
    · exact le_of_lt (hunf2 ▸ hstrict c hcf)
    · rcases List.mem_cons.mp hcf with hcf | hcf
      · rw [hcf]
      · exact hunf2 ▸ hweak c hcf
  · intro c hc
    exact hunf2 ▸ hstrict c hc
  · intro c hc
    exact hunf2 ▸ hweak c hc

/-- Witness for C8 on a concrete one-entry palette. -/
theorem findDominantColor_spec_witness :
    findDominantColor [⟨1, 2, 3⟩] ["#ff0000"] ∈ ["#ff0000"] :=
  (findDominantColor_spec [⟨1, 2, 3⟩] ["#ff0000"] (by decide)).2.1
